import Mathlib

/-!
Shallow embedding of `src/main.py` (ChromaDBManager): a directory-change
detector that hashes files with SHA-256 and persists metadata rows into a
SQLite table keyed by a UNIQUE checksum column.

Python bytes are `List Nat` (each element < 256), Python `datetime` values are
`PyDateTime` (a wall-clock value plus an optional UTC-offset zone), the SQLite
table is a `Store` (list of rows plus the AUTOINCREMENT counter), and the
fallible parts (file reads, SQL execution) return `Except`/error options.
-/

/-- Python `datetime`: a naive wall-clock value plus `tzinfo`
(`none` = naive, `some z` = fixed UTC offset; `some 0` is `timezone.utc`). -/
structure PyDateTime where
  clock : Nat
  tzinfo : Option Int
deriving DecidableEq

/- ### SHA-256 (FIPS 180-4), the function `hashlib.sha256` computes -/

/-- Truncate to a 32-bit word. -/
def w32 (v : Nat) : Nat := v % 4294967296

/-- 32-bit modular addition. -/
def wAdd (a b : Nat) : Nat := (a + b) % 4294967296

/-- 32-bit right rotation. -/
def rotr (n w : Nat) : Nat := (w >>> n) ||| w32 (w <<< (32 - n))

/-- SHA-256 `Ch` function. -/
def ch (u v w : Nat) : Nat := (u &&& v) ^^^ ((u ^^^ 4294967295) &&& w)

/-- SHA-256 `Maj` function. -/
def maj (u v w : Nat) : Nat := (u &&& v) ^^^ (u &&& w) ^^^ (v &&& w)

/-- SHA-256 `Σ₀`. -/
def bigSigma0 (w : Nat) : Nat := rotr 2 w ^^^ rotr 13 w ^^^ rotr 22 w

/-- SHA-256 `Σ₁`. -/
def bigSigma1 (w : Nat) : Nat := rotr 6 w ^^^ rotr 11 w ^^^ rotr 25 w

/-- SHA-256 `σ₀`. -/
def smallSigma0 (w : Nat) : Nat := rotr 7 w ^^^ rotr 18 w ^^^ (w >>> 3)

/-- SHA-256 `σ₁`. -/
def smallSigma1 (w : Nat) : Nat := rotr 17 w ^^^ rotr 19 w ^^^ (w >>> 10)

/-- The 64 SHA-256 round constants. -/
def sha256K : List Nat :=
  [1116352408, 1899447441, 3049323471, 3921009573, 961987163,
   1508970993, 2453635748, 2870763221, 3624381080, 310598401,
   607225278, 1426881987, 1925078388, 2162078206, 2614888103,
   3248222580, 3835390401, 4022224774, 264347078, 604807628,
   770255983, 1249150122, 1555081692, 1996064986, 2554220882,
   2821834349, 2952996808, 3210313671, 3336571891, 3584528711,
   113926993, 338241895, 666307205, 773529912, 1294757372,
   1396182291, 1695183700, 1986661051, 2177026350, 2456956037,
   2730485921, 2820302411, 3259730800, 3345764771, 3516065817,
   3600352804, 4094571909, 275423344, 430227734, 506948616,
   659060556, 883997877, 958139571, 1322822218, 1537002063,
   1747873779, 1955562222, 2024104815, 2227730452, 2361852424,
   2428436474, 2756734187, 3204031479, 3329325298]

/-- The eight SHA-256 working/hash words. -/
structure Hash8 where
  a : Nat
  b : Nat
  c : Nat
  d : Nat
  e : Nat
  f : Nat
  g : Nat
  h : Nat
deriving DecidableEq

/-- The SHA-256 initial hash value H⁽⁰⁾. -/
def sha256H0 : Hash8 :=
  ⟨1779033703, 3144134277, 1013904242, 2773480762,
   1359893119, 2600822924, 528734635, 1541459225⟩

/-- One SHA-256 compression round with round constant `ki` and word `wi`. -/
def sha256Round (st : Hash8) (kw : Nat × Nat) : Hash8 :=
  let t1 := wAdd st.h (wAdd (bigSigma1 st.e) (wAdd (ch st.e st.f st.g) (wAdd kw.1 kw.2)))
  let t2 := wAdd (bigSigma0 st.a) (maj st.a st.b st.c)
  ⟨wAdd t1 t2, st.a, st.b, st.c, wAdd st.d t1, st.e, st.f, st.g⟩

/-- Big-endian 32-bit word from four bytes. -/
def bytesToWord (b0 b1 b2 b3 : Nat) : Nat :=
  b0 * 16777216 + b1 * 65536 + b2 * 256 + b3

/-- The first 16 words of the message schedule, from the 64-byte block. -/
def blockWords : List Nat → List Nat
  | b0 :: b1 :: b2 :: b3 :: rest => bytesToWord b0 b1 b2 b3 :: blockWords rest
  | _ => []

/-- One message-schedule extension step: appends word `Wₜ` for `t = length`. -/
def scheduleStep (w : List Nat) : List Nat :=
  let n := w.length
  w ++ [wAdd (wAdd (smallSigma1 (w.getD (n - 2) 0)) (w.getD (n - 7) 0))
             (wAdd (smallSigma0 (w.getD (n - 15) 0)) (w.getD (n - 16) 0))]

/-- Iterate a function `k` times. -/
def iterFn (f : α → α) : Nat → α → α
  | 0, x => x
  | k + 1, x => iterFn f k (f x)

/-- The full 64-word message schedule of one block. -/
def schedule (block : List Nat) : List Nat :=
  iterFn scheduleStep 48 (blockWords block)

/-- SHA-256 compression of one 64-byte block into the running hash. -/
def sha256Block (hv : Hash8) (block : List Nat) : Hash8 :=
  let st := (sha256K.zip (schedule block)).foldl sha256Round hv
  ⟨wAdd hv.a st.a, wAdd hv.b st.b, wAdd hv.c st.c, wAdd hv.d st.d,
   wAdd hv.e st.e, wAdd hv.f st.f, wAdd hv.g st.g, wAdd hv.h st.h⟩

/-- Big-endian 8-byte encoding of a (bit-)length. -/
def be64 (n : Nat) : List Nat :=
  [(n >>> 56) % 256, (n >>> 48) % 256, (n >>> 40) % 256, (n >>> 32) % 256,
   (n >>> 24) % 256, (n >>> 16) % 256, (n >>> 8) % 256, n % 256]

/-- SHA-256 padding: `0x80`, zeros to 56 mod 64, then the 64-bit bit length. -/
def sha256Pad (msg : List Nat) : List Nat :=
  msg ++ 128 :: List.replicate ((119 - msg.length % 64) % 64) 0 ++ be64 (8 * msg.length)

/-- Split a list into successive blocks of `n` elements (`fuel` bounds the
recursion; `fuel = l.length` is always enough when `0 < n`). -/
def blocksGo (n : Nat) : Nat → List α → List (List α)
  | 0, _ => []
  | _, [] => []
  | fuel + 1, x :: l => (x :: l).take n :: blocksGo n fuel ((x :: l).drop n)

/-- Big-endian bytes of one 32-bit word. -/
def wordBytes (w : Nat) : List Nat :=
  [(w >>> 24) % 256, (w >>> 16) % 256, (w >>> 8) % 256, w % 256]

/-- SHA-256 digest (32 bytes) of a byte string. -/
def sha256 (msg : List Nat) : List Nat :=
  let padded := sha256Pad msg
  let hv := (blocksGo 64 padded.length padded).foldl sha256Block sha256H0
  ([hv.a, hv.b, hv.c, hv.d, hv.e, hv.f, hv.g, hv.h].map wordBytes).flatten

/-- Lowercase hexadecimal digit for `n < 16`. -/
def hexDigit (n : Nat) : Char :=
  if n < 10 then Char.ofNat (48 + n) else Char.ofNat (87 + n)

/-- Two lowercase hex digits of one byte. -/
def byteHex (b : Nat) : List Char := [hexDigit (b / 16), hexDigit (b % 16)]

/-- Lowercase hex string of a byte list (the `hexdigest` format of Python). -/
def toLowerHex (bs : List Nat) : String := ⟨(bs.map byteHex).flatten⟩

/-- The `hashlib.sha256()` hasher object: `update` only accumulates the bytes fed
so far; the digest is taken over the accumulated stream. -/
structure Sha256Hasher where
  acc : List Nat
deriving DecidableEq

/-- Python `hasher.update(chunk)` — appends the chunk to the accumulated stream. -/
def Sha256Hasher.update (hs : Sha256Hasher) (chunk : List Nat) : Sha256Hasher :=
  ⟨hs.acc ++ chunk⟩

/-- Python `hasher.hexdigest()` — lowercase hex SHA-256 of the accumulated stream. -/
def Sha256Hasher.hexdigest (hs : Sha256Hasher) : String :=
  toLowerHex (sha256 hs.acc)

/-- The method `calculate_checksum` (src/main.py lines 64–70): feeds the file content to
a fresh hasher in 4096-byte chunks (`iter(lambda: f.read(4096), b"")`) and
returns the lowercase hex digest. -/
def calculate_checksum (content : List Nat) : String :=
  ((blocksGo 4096 content.length content).foldl Sha256Hasher.update ⟨[]⟩).hexdigest

/- ### Metadata store (the SQLite table `file_metadata`) -/

/-- One row of `file_metadata` (schema at src/main.py lines 35–45):
`id INTEGER PRIMARY KEY AUTOINCREMENT`, `filename TEXT NOT NULL`,
`path TEXT NOT NULL`, `upload_date TIMESTAMP DEFAULT CURRENT_TIMESTAMP`,
`file_size INTEGER`, `checksum TEXT UNIQUE`, `last_modified TIMESTAMP`. -/
structure FileRecord where
  id : Nat
  filename : String
  path : String
  upload_date : Nat
  file_size : Nat
  checksum : String
  last_modified : PyDateTime
deriving DecidableEq

/-- The SQLite database: the table rows plus the AUTOINCREMENT counter. -/
structure Store where
  rows : List FileRecord
  nextId : Nat
deriving DecidableEq

/-- The step `_initialize_sqlite_db` on a fresh path: `CREATE TABLE IF NOT EXISTS`
yields an empty table and the AUTOINCREMENT counter at 1. -/
def initDb : Store := ⟨[], 1⟩

/-- One tuple of the `new_files` list built at src/main.py line 108:
`(file_path, file_size, checksum, last_modified)`. -/
structure FileTuple where
  path : String
  size : Nat
  checksum : String
  lastModified : PyDateTime
deriving DecidableEq

/-- Characters after the last `/`, scanning left to right with accumulator. -/
def afterLastSlash : List Char → List Char → List Char
  | [], acc => acc.reverse
  | c :: rest, acc =>
    if c = '/' then afterLastSlash rest [] else afterLastSlash rest (c :: acc)

/-- Python `os.path.basename`: the part of the path after the last separator. -/
def basename (p : String) : String := ⟨afterLastSlash p.data []⟩

/-- The timezone normalization at src/main.py lines 127–128: a naive datetime
gets `tzinfo=timezone.utc` attached by `.replace`, keeping the clock value;
an aware datetime passes through unchanged. -/
def normTz (d : PyDateTime) : PyDateTime :=
  if d.tzinfo = none then ⟨d.clock, some 0⟩ else d

/-- The row written by the `INSERT OR REPLACE` at lines 130–133: filename is
`os.path.basename(file_path)`, `upload_date` takes its default (the write
time `now`), `id` takes the next AUTOINCREMENT value. -/
def mkRow (now id : Nat) (f : FileTuple) : FileRecord :=
  ⟨id, basename f.path, f.path, now, f.size, f.checksum, normTz f.lastModified⟩

/-- Effect of one `INSERT OR REPLACE` execution: any row whose UNIQUE
`checksum` equals the checksum of the new tuple is deleted, and the new row is
inserted with a fresh AUTOINCREMENT id. -/
def applyInsert (now : Nat) (s : Store) (f : FileTuple) : Store :=
  ⟨s.rows.filter (fun r => !(r.checksum == f.checksum)) ++ [mkRow now s.nextId f],
   s.nextId + 1⟩

/-- The whole batch applied in order (the committed effect of
`_update_file_metadata` when every execution succeeds). -/
def upsertAll (now : Nat) (s : Store) (files : List FileTuple) : Store :=
  files.foldl (applyInsert now) s

/-- The method `get_tracked_files` (lines 72–82): `SELECT path, checksum FROM
file_metadata`, collected as a set of pairs (modelled as the list of pairs;
only membership is consulted). -/
def getTrackedFiles (s : Store) : List (String × String) :=
  s.rows.map (fun r => (r.path, r.checksum))

/-- Transaction body of `_update_file_metadata` (lines 117–136): the
implicit transaction of the connection applies each `INSERT OR REPLACE` to the
transaction state `txn`; `execFails` says whether a given execution raises.
On the first raising execution the exception propagates with the transaction
never committed, so the durable store stays `db`; after the loop,
`conn.commit()` makes `txn` durable. Returns the durable store and the
propagated error, if any. -/
def updateGo (db : Store) (now : Nat) (execFails : FileTuple → Bool) :
    Store → List FileTuple → Store × Option String
  | txn, [] => (txn, none)
  | txn, f :: rest =>
    if execFails f then (db, some "StorageError")
    else updateGo db now execFails (applyInsert now txn f) rest

/-- The method `_update_file_metadata` (lines 117–136): run the batch inside one
connection/transaction against the durable store `db`. -/
def updateFileMetadata (db : Store) (now : Nat) (files : List FileTuple)
    (execFails : FileTuple → Bool) : Store × Option String :=
  updateGo db now execFails db files

/- ### Change detector (`check_for_new_files`) -/

/-- One entry encountered by the `os.walk` loop, with its state at processing
time: `path` is the joined `file_path`; `isFile` is the `os.path.isfile` test
(false for directories, symlinks to nothing, vanished or special entries);
`readable` says whether `open`/`read` succeeds; `size` is `os.path.getsize`;
`mtimeClock` the naive local clock of `datetime.fromtimestamp(getmtime)`;
`content` the bytes `calculate_checksum` would stream. -/
structure FsEntry where
  path : String
  isFile : Bool
  readable : Bool
  size : Nat
  mtimeClock : Nat
  content : List Nat
deriving DecidableEq

/-- The tuple appended to `new_files` for a visited regular file (line 108).
`datetime.fromtimestamp` yields a naive datetime, so `tzinfo = none`. -/
def newTuple (e : FsEntry) : FileTuple :=
  ⟨e.path, e.size, calculate_checksum e.content, ⟨e.mtimeClock, none⟩⟩

/-- The walk loop of `check_for_new_files` (lines 91–109) over the entries in
walk order: a non-regular entry is skipped (line 95); a regular entry that
cannot be read makes `open` raise, aborting the pass (no handler in the
source); an entry whose `(file_path, checksum)` pair is tracked is skipped
(lines 103–105); otherwise its tuple joins `new_files` in order. -/
def processEntries (tracked : List (String × String)) :
    List FsEntry → Except String (List FileTuple)
  | [] => .ok []
  | e :: rest =>
    if e.isFile = false then processEntries tracked rest
    else if e.readable = false then .error e.path
    else
      let cks := calculate_checksum e.content
      if (e.path, cks) ∈ tracked then processEntries tracked rest
      else
        match processEntries tracked rest with
        | .error msg => .error msg
        | .ok tail => .ok (newTuple e :: tail)

/-- Outcome of one detection pass: the durable store afterwards and the batch
handed to `_update_file_metadata` (`[]` means the upsert was never called). -/
structure PassResult where
  store : Store
  batch : List FileTuple
deriving DecidableEq

/-- The method `check_for_new_files` (lines 84–115): load the tracked snapshot once, walk
and diff, then — only if `new_files` is non-empty — persist the batch through
`_update_file_metadata`; any exception (unreadable file, failed execution)
propagates as the outcome of the run with the durable store unchanged. -/
def checkForNewFiles (s : Store) (now : Nat) (entries : List FsEntry)
    (execFails : FileTuple → Bool) : Except String PassResult :=
  let tracked := getTrackedFiles s
  match processEntries tracked entries with
  | .error msg => .error msg
  | .ok newFiles =>
    if newFiles = [] then .ok ⟨s, []⟩
    else
      match updateFileMetadata s now newFiles execFails with
      | (s2, none) => .ok ⟨s2, newFiles⟩
      | (_, some msg) => .error msg

/- ### Store operation sequences (for the uniqueness invariant) -/

/-- One store-level operation of the manager: `_initialize_sqlite_db` on an
existing database (`CREATE TABLE IF NOT EXISTS` leaves it unchanged),
`get_tracked_files` (a read), or a committed `_update_file_metadata` batch. -/
inductive DbOp where
  | initOp : DbOp
  | loadOp : DbOp
  | upsertOp (now : Nat) (files : List FileTuple) : DbOp

/-- Effect of one operation on the durable store. -/
def applyOp (s : Store) : DbOp → Store
  | .initOp => s
  | .loadOp => s
  | .upsertOp now files => upsertAll now s files

/-- No two rows share a checksum. -/
abbrev UniqueChecksums (s : Store) : Prop :=
  (s.rows.map FileRecord.checksum).Nodup

/- ### Derived definitions used to state the properties -/

/-- The batch the walk produces when no read fails: regular files whose
`(path, checksum)` pair is absent from the tracked snapshot, in walk order. -/
def walkBatch (tracked : List (String × String)) : List FsEntry → List FileTuple
  | [] => []
  | e :: rest =>
    if e.isFile = false then walkBatch tracked rest
    else if (e.path, calculate_checksum e.content) ∈ tracked then walkBatch tracked rest
    else newTuple e :: walkBatch tracked rest

/-- Every regular file among the entries can be opened and read. -/
abbrev AllReadable (entries : List FsEntry) : Prop :=
  ∀ e ∈ entries, e.isFile = true → e.readable = true

/-- The checksum the content of an entry hashes to. -/
def entryCks (e : FsEntry) : String := calculate_checksum e.content

/-- The regular files among the entries have pairwise distinct checksums. -/
abbrev DistinctCks (entries : List FsEntry) : Prop :=
  ((entries.filter fun e => e.isFile).map entryCks).Nodup

/-- The sixteen lowercase hexadecimal digit characters. -/
def lowerHexChars : List Char := "0123456789abcdef".data

/-- Whether a string consists only of lowercase hexadecimal digits. -/
def isLowerHexStr (s : String) : Bool :=
  s.data.all fun c => lowerHexChars.contains c

/- ### Concrete fixtures used by witnesses and counterexamples -/

/-- C1 fixture: a stored record for the empty content, recorded at
`data/a.txt`. -/
def r1cex : FileRecord :=
  ⟨1, "a.txt", "data/a.txt", 5, 0, calculate_checksum [], ⟨9, some 0⟩⟩

/-- C1 fixture: the store holding just that record. -/
def s1cex : Store := ⟨[r1cex], 2⟩

/-- C1 fixture: the same (empty) content now sitting at `data/b.txt`. -/
def e1cex : FsEntry := ⟨"data/b.txt", true, true, 0, 7, []⟩

/-- C2 fixture: a readable file listed before the unreadable one. -/
def e2a : FsEntry := ⟨"data/ok1.txt", true, true, 0, 5, []⟩

/-- C2 fixture: a regular file that cannot be opened. -/
def e2u : FsEntry := ⟨"data/locked.txt", true, false, 3, 5, [1]⟩

/-- C2 fixture: a readable file listed after the unreadable one. -/
def e2c : FsEntry := ⟨"data/ok2.txt", true, true, 1, 5, [2]⟩

/-- C2 fixture: a non-regular (vanished) entry. -/
def e2v : FsEntry := ⟨"data/gone.txt", false, false, 0, 5, []⟩

/-- C3 fixture: first of two files with identical (empty) content. -/
def e3a : FsEntry := ⟨"data/a.txt", true, true, 0, 5, []⟩

/-- C3 fixture: second file with the same content at another path. -/
def e3b : FsEntry := ⟨"data/b.txt", true, true, 0, 5, []⟩

/-- C4 fixture: a tuple whose checksum will already be present. -/
def t4w : FileTuple := ⟨"data/q.txt", 2, "cs4", ⟨3, none⟩⟩

/-- C4 fixture: a store already holding a row for that checksum. -/
def s4w : Store := upsertAll 1 initDb [t4w]

/-- C6 fixture: one batch tuple. -/
def t6w : FileTuple := ⟨"data/x.txt", 1, "cs6", ⟨0, none⟩⟩

/-- C6 fixture: one untracked regular readable file. -/
def e6w : FsEntry := ⟨"data/y.txt", true, true, 2, 5, []⟩

/-- C7 fixture: the record previously stored for `data/a.txt`. -/
def r7w : FileRecord := ⟨1, "a.txt", "data/a.txt", 5, 0, "oldsum", ⟨9, some 0⟩⟩

/-- C7 fixture: the store holding just that record. -/
def s7w : Store := ⟨[r7w], 2⟩

/-- C7 fixture: the same path with changed content. -/
def e7w : FsEntry := ⟨"data/a.txt", true, true, 1, 8, [1]⟩

/-- C9 fixture: a tuple carrying a naive timestamp. -/
def t9w : FileTuple := ⟨"data/n.txt", 4, "cs9", ⟨11, none⟩⟩

/-- C10 fixture: first of two files with identical content `[9]`. -/
def e10a : FsEntry := ⟨"data/d1.txt", true, true, 1, 5, [9]⟩

/-- C10 fixture: second file with the same content, processed last. -/
def e10b : FsEntry := ⟨"data/d2.txt", true, true, 1, 6, [9]⟩

theorem sha256_empty_test :
    sha256 [] =
      [227, 176, 196, 66, 152, 252, 28, 20, 154, 251, 244, 200,
       153, 111, 185, 36, 39, 174, 65, 228, 100, 155, 147, 76,
       164, 149, 153, 27, 120, 82, 184, 85] := by
  decide

theorem blocksGo_flatten {α : Type} (n : Nat) (hn : 0 < n) :
    ∀ (fuel : Nat) (l : List α), l.length ≤ fuel → (blocksGo n fuel l).flatten = l := by
  intro fuel
  induction fuel with
  | zero =>
    intro l hl
    have : l = [] := List.length_eq_zero.mp (Nat.le_zero.mp hl)
    subst this
    simp [blocksGo]
  | succ k ih =>
    intro l hl
    cases l with
    | nil => simp [blocksGo]
    | cons x xs =>
      have hstep : blocksGo n (k + 1) (x :: xs)
          = (x :: xs).take n :: blocksGo n k ((x :: xs).drop n) := by
        cases n with
        | zero => exact absurd hn (by simp)
        | succ m => rfl
      rw [hstep, List.flatten_cons, ih]
      · exact List.take_append_drop n (x :: xs)
      · simp only [List.length_drop, List.length_cons]
        simp only [List.length_cons] at hl
        omega

theorem foldl_update (chunks : List (List Nat)) (hs : Sha256Hasher) :
    chunks.foldl Sha256Hasher.update hs = ⟨hs.acc ++ chunks.flatten⟩ := by
  induction chunks generalizing hs with
  | nil => simp
  | cons c cs ih =>
    simp [List.foldl_cons, Sha256Hasher.update, ih, List.append_assoc]

theorem calculate_checksum_eq (content : List Nat) :
    calculate_checksum content = toLowerHex (sha256 content) := by
  unfold calculate_checksum
  rw [foldl_update, blocksGo_flatten 4096 (by norm_num) content.length content le_rfl]
  simp [Sha256Hasher.hexdigest]

theorem wordBytes_lt (w : Nat) : ∀ b ∈ wordBytes w, b < 256 := by
  intro b hb
  simp [wordBytes] at hb
  rcases hb with h | h | h | h <;> (subst h; exact Nat.mod_lt _ (by norm_num))

theorem sha256_bytes_lt (msg : List Nat) : ∀ b ∈ sha256 msg, b < 256 := by
  intro b hb
  unfold sha256 at hb
  simp only [List.mem_flatten, List.mem_map] at hb
  obtain ⟨l, ⟨w, _, rfl⟩, hbl⟩ := hb
  exact wordBytes_lt w b hbl

theorem hexDigit_mem (n : Nat) (h : n < 16) :
    lowerHexChars.contains (hexDigit n) = true := by
  interval_cases n <;> decide

theorem toLowerHex_isLowerHex (bs : List Nat) (h : ∀ b ∈ bs, b < 256) :
    isLowerHexStr (toLowerHex bs) = true := by
  simp only [isLowerHexStr, toLowerHex, List.all_eq_true]
  intro c hc
  simp only [List.mem_flatten, List.mem_map] at hc
  obtain ⟨l, ⟨b, hb, rfl⟩, hcl⟩ := hc
  have hblt : b < 256 := h b hb
  simp only [byteHex, List.mem_cons, List.mem_singleton] at hcl
  rcases hcl with rfl | rfl | hfalse
  · exact hexDigit_mem _ (Nat.div_lt_of_lt_mul (by omega))
  · exact hexDigit_mem _ (Nat.mod_lt _ (by norm_num))
  · exact absurd hfalse (List.not_mem_nil c)

/-- C5: `calculate_checksum` returns the lowercase hexadecimal SHA-256 digest
of the entire byte content of the file (the 4096-byte block reads, folded through
the hasher, accumulate exactly the full content); it is deterministic, every
digest character is a lowercase hex digit, and a zero-length file yields the
SHA-256 digest of empty input (the well-known constant
e3b0c44298fc1c149afbf4c8996fb92427ae41e4649b934ca495991b7852b855). -/
theorem C5_checksum_is_streamed_sha256 (content c1 c2 : List Nat) :
    calculate_checksum content = toLowerHex (sha256 content)
    ∧ (c1 = c2 → calculate_checksum c1 = calculate_checksum c2)
    ∧ isLowerHexStr (calculate_checksum content) = true
    ∧ calculate_checksum [] = toLowerHex (sha256 [])
    ∧ sha256 [] =
      [227, 176, 196, 66, 152, 252, 28, 20, 154, 251, 244, 200,
       153, 111, 185, 36, 39, 174, 65, 228, 100, 155, 147, 76,
       164, 149, 153, 27, 120, 82, 184, 85] := by
  refine ⟨calculate_checksum_eq content, fun h => by rw [h], ?_,
    calculate_checksum_eq [], sha256_empty_test⟩
  rw [calculate_checksum_eq]
  exact toLowerHex_isLowerHex _ (sha256_bytes_lt content)

theorem C5_checksum_witness :
    calculate_checksum [7] = calculate_checksum [7] :=
  (C5_checksum_is_streamed_sha256 [] [7] [7]).2.1 rfl

theorem upsertAll_nil (now : Nat) (s : Store) : upsertAll now s [] = s := rfl

theorem upsertAll_cons (now : Nat) (s : Store) (g : FileTuple) (rest : List FileTuple) :
    upsertAll now s (g :: rest) = upsertAll now (applyInsert now s g) rest := rfl

theorem mkRow_checksum (now id : Nat) (f : FileTuple) :
    (mkRow now id f).checksum = f.checksum := rfl

theorem filter_ne_of_not_mem (rows : List FileRecord) (c : String)
    (h : c ∉ rows.map FileRecord.checksum) :
    rows.filter (fun r => !(r.checksum == c)) = rows := by
  apply List.filter_eq_self.mpr
  intro r hr
  have hne : r.checksum ≠ c := fun hc => h (List.mem_map.mpr ⟨r, hr, hc⟩)
  simp [hne]

theorem filter_eq_applyInsert (now : Nat) (s : Store) (f : FileTuple) :
    (applyInsert now s f).rows.filter (fun r => r.checksum == f.checksum)
      = [mkRow now s.nextId f] := by
  simp [applyInsert, List.filter_append, List.filter_filter, mkRow]

theorem mem_rows_applyInsert (now : Nat) (s : Store) (f : FileTuple) (r : FileRecord)
    (hr : r ∈ s.rows) (hne : r.checksum ≠ f.checksum) :
    r ∈ (applyInsert now s f).rows := by
  simp [applyInsert, List.mem_append, List.mem_filter, hr, hne]

theorem mkRow_mem_applyInsert (now : Nat) (s : Store) (f : FileTuple) :
    mkRow now s.nextId f ∈ (applyInsert now s f).rows := by
  simp [applyInsert]

theorem mem_rows_upsertAll (now : Nat) :
    ∀ (files : List FileTuple) (s : Store) (r : FileRecord),
      r ∈ s.rows → (∀ f ∈ files, r.checksum ≠ f.checksum) →
      r ∈ (upsertAll now s files).rows := by
  intro files
  induction files with
  | nil => intro s r hr _; exact hr
  | cons g rest ih =>
    intro s r hr hne
    rw [upsertAll_cons]
    exact ih _ r (mem_rows_applyInsert now s g r hr (hne g (List.mem_cons_self g rest)))
      (fun f hf => hne f (List.mem_cons_of_mem g hf))

theorem tracked_after_upsertAll (now : Nat) :
    ∀ (files : List FileTuple) (s : Store) (f : FileTuple),
      f ∈ files → (files.map FileTuple.checksum).Nodup →
      (f.path, f.checksum) ∈ getTrackedFiles (upsertAll now s files) := by
  intro files
  induction files with
  | nil => intro s f h _; exact absurd h (List.not_mem_nil f)
  | cons g rest ih =>
    intro s f hf hnd
    simp only [List.map_cons, List.nodup_cons] at hnd
    rw [upsertAll_cons]
    rcases List.mem_cons.mp hf with rfl | hfr
    · have hsurv : mkRow now s.nextId f ∈ (upsertAll now (applyInsert now s f) rest).rows := by
        apply mem_rows_upsertAll
        · exact mkRow_mem_applyInsert now s f
        · intro t ht heq
          exact hnd.1 (List.mem_map.mpr ⟨t, ht, by rw [← heq, mkRow_checksum]⟩)
      exact List.mem_map.mpr ⟨mkRow now s.nextId f, hsurv, rfl⟩
    · exact ih _ f hfr hnd.2

theorem tracked_preserved (now : Nat) (files : List FileTuple) (s : Store)
    (p c : String) (hp : (p, c) ∈ getTrackedFiles s)
    (hne : ∀ f ∈ files, f.checksum ≠ c) :
    (p, c) ∈ getTrackedFiles (upsertAll now s files) := by
  obtain ⟨r, hr, hrc⟩ := List.mem_map.mp hp
  have hpath : r.path = p := congrArg Prod.fst hrc
  have hcks : r.checksum = c := congrArg Prod.snd hrc
  have : r ∈ (upsertAll now s files).rows := by
    apply mem_rows_upsertAll now files s r hr
    intro f hf heq
    exact hne f hf (by rw [← heq, hcks])
  exact List.mem_map.mpr ⟨r, this, by rw [hpath, hcks]⟩

theorem processEntries_ok (tracked : List (String × String)) :
    ∀ entries : List FsEntry, AllReadable entries →
      processEntries tracked entries = .ok (walkBatch tracked entries) := by
  intro entries
  induction entries with
  | nil => intro _; rfl
  | cons e rest ih =>
    intro h
    have hrest : AllReadable rest := fun f hf => h f (List.mem_cons_of_mem e hf)
    by_cases hf : e.isFile = true
    · have hr : e.readable = true := h e (List.mem_cons_self e rest) hf
      by_cases hm : (e.path, calculate_checksum e.content) ∈ tracked <;>
        simp [processEntries, walkBatch, hf, hr, hm, ih hrest]
    · simp only [Bool.not_eq_true] at hf
      simp [processEntries, walkBatch, hf, ih hrest]

theorem updateGo_ok (db : Store) (now : Nat) (execFails : FileTuple → Bool) :
    ∀ (files : List FileTuple) (txn : Store),
      (∀ f ∈ files, execFails f = false) →
      updateGo db now execFails txn files = (files.foldl (applyInsert now) txn, none) := by
  intro files
  induction files with
  | nil => intro txn _; rfl
  | cons g rest ih =>
    intro txn h
    have hg : execFails g = false := h g (List.mem_cons_self g rest)
    simp [updateGo, hg, ih (applyInsert now txn g) fun f hf => h f (List.mem_cons_of_mem g hf)]

theorem updateGo_err (db : Store) (now : Nat) (execFails : FileTuple → Bool) :
    ∀ (files : List FileTuple) (txn : Store),
      (∃ f ∈ files, execFails f = true) →
      updateGo db now execFails txn files = (db, some "StorageError") := by
  intro files
  induction files with
  | nil => intro txn h; obtain ⟨f, hf, _⟩ := h; exact absurd hf (List.not_mem_nil f)
  | cons g rest ih =>
    intro txn h
    by_cases hg : execFails g = true
    · simp [updateGo, hg]
    · simp only [Bool.not_eq_true] at hg
      obtain ⟨f, hf, hfe⟩ := h
      rcases List.mem_cons.mp hf with rfl | hfr
      · rw [hg] at hfe; exact absurd hfe (by simp)
      · simp [updateGo, hg, ih (applyInsert now txn g) ⟨f, hfr, hfe⟩]

theorem updateFileMetadata_noFail (db : Store) (now : Nat) (files : List FileTuple) :
    updateFileMetadata db now files (fun _ => false) = (upsertAll now db files, none) :=
  updateGo_ok db now _ files db fun _ _ => rfl

theorem checkForNewFiles_noFail (s : Store) (now : Nat) (entries : List FsEntry)
    (h : AllReadable entries) :
    checkForNewFiles s now entries (fun _ => false)
      = .ok ⟨upsertAll now s (walkBatch (getTrackedFiles s) entries),
             walkBatch (getTrackedFiles s) entries⟩ := by
  unfold checkForNewFiles
  simp only [processEntries_ok _ _ h]
  by_cases hb : walkBatch (getTrackedFiles s) entries = []
  · simp [hb, upsertAll_nil]
  · simp [hb, updateFileMetadata_noFail]

theorem newTuple_checksum (e : FsEntry) : (newTuple e).checksum = entryCks e := rfl

theorem walkBatch_nil_of_tracked (tracked : List (String × String)) :
    ∀ entries : List FsEntry,
      (∀ e ∈ entries, e.isFile = true → (e.path, entryCks e) ∈ tracked) →
      walkBatch tracked entries = [] := by
  intro entries
  induction entries with
  | nil => intro _; rfl
  | cons e rest ih =>
    intro h
    have hrest := fun f hf => h f (List.mem_cons_of_mem e hf)
    by_cases hf : e.isFile = true
    · have hm : (e.path, calculate_checksum e.content) ∈ tracked :=
        h e (List.mem_cons_self e rest) hf
      simp [walkBatch, hf, hm, ih hrest]
    · simp only [Bool.not_eq_true] at hf
      simp [walkBatch, hf, ih hrest]

theorem walkBatch_mem (tracked : List (String × String)) :
    ∀ (entries : List FsEntry) (e : FsEntry), e ∈ entries → e.isFile = true →
      (e.path, entryCks e) ∉ tracked → newTuple e ∈ walkBatch tracked entries := by
  intro entries
  induction entries with
  | nil => intro e h; exact absurd h (List.not_mem_nil e)
  | cons g rest ih =>
    intro e he hf hm
    rcases List.mem_cons.mp he with rfl | her
    · simp [walkBatch, hf, entryCks] at hm ⊢
      simp [hm]
    · by_cases hgf : g.isFile = true
      · by_cases hgm : (g.path, calculate_checksum g.content) ∈ tracked
        · simp [walkBatch, hgf, hgm]; exact ih e her hf hm
        · simp [walkBatch, hgf, hgm]; exact Or.inr (ih e her hf hm)
      · simp only [Bool.not_eq_true] at hgf
        simp [walkBatch, hgf]; exact ih e her hf hm

theorem walkBatch_mem_inv (tracked : List (String × String)) :
    ∀ (entries : List FsEntry) (t : FileTuple), t ∈ walkBatch tracked entries →
      ∃ e ∈ entries, e.isFile = true ∧ (e.path, entryCks e) ∉ tracked ∧ t = newTuple e := by
  intro entries
  induction entries with
  | nil => intro t h; exact absurd h (List.not_mem_nil t)
  | cons g rest ih =>
    intro t ht
    by_cases hgf : g.isFile = true
    · by_cases hgm : (g.path, calculate_checksum g.content) ∈ tracked
      · simp only [walkBatch, hgf, hgm, if_true, if_false, Bool.true_eq_false] at ht
        obtain ⟨e, he, h1, h2, h3⟩ := ih t (by simpa using ht)
        exact ⟨e, List.mem_cons_of_mem g he, h1, h2, h3⟩
      · simp only [walkBatch, hgf, Bool.true_eq_false, if_false] at ht
        rw [if_neg hgm] at ht
        rcases List.mem_cons.mp ht with rfl | htr
        · exact ⟨g, List.mem_cons_self g rest, hgf, hgm, rfl⟩
        · obtain ⟨e, he, h1, h2, h3⟩ := ih t htr
          exact ⟨e, List.mem_cons_of_mem g he, h1, h2, h3⟩
    · simp only [Bool.not_eq_true] at hgf
      simp only [walkBatch, hgf, if_true] at ht
      obtain ⟨e, he, h1, h2, h3⟩ := ih t (by simpa using ht)
      exact ⟨e, List.mem_cons_of_mem g he, h1, h2, h3⟩

theorem walkBatch_cks_sublist (tracked : List (String × String)) :
    ∀ entries : List FsEntry,
      List.Sublist ((walkBatch tracked entries).map FileTuple.checksum)
        ((entries.filter fun e => e.isFile).map entryCks) := by
  intro entries
  induction entries with
  | nil => exact List.Sublist.refl []
  | cons g rest ih =>
    by_cases hgf : g.isFile = true
    · by_cases hgm : (g.path, calculate_checksum g.content) ∈ tracked
      · simp only [walkBatch, hgf, hgm, if_true, Bool.true_eq_false, if_false,
          List.filter_cons_of_pos, List.map_cons]
        exact ih.cons (entryCks g)
      · simp only [walkBatch, hgf, Bool.true_eq_false, if_false, if_neg hgm,
          List.filter_cons_of_pos, List.map_cons, newTuple_checksum]
        exact ih.cons₂ (entryCks g)
    · simp only [Bool.not_eq_true] at hgf
      have hfil : List.filter (fun e => e.isFile) (g :: rest)
          = List.filter (fun e => e.isFile) rest := by
        simp [List.filter_cons, hgf]
      simp only [walkBatch, hgf, if_true, hfil]
      exact ih

theorem walkBatch_all_new (tracked : List (String × String)) :
    ∀ entries : List FsEntry,
      (∀ e ∈ entries, e.isFile = true ∧ (e.path, entryCks e) ∉ tracked) →
      walkBatch tracked entries = entries.map newTuple := by
  intro entries
  induction entries with
  | nil => intro _; rfl
  | cons g rest ih =>
    intro h
    have hg := h g (List.mem_cons_self g rest)
    have hg2 : (g.path, calculate_checksum g.content) ∉ tracked := hg.2
    have hrest := fun f hf => h f (List.mem_cons_of_mem g hf)
    simp only [walkBatch, hg.1, Bool.true_eq_false, if_false, if_neg hg2,
      List.map_cons, ih hrest]

theorem normTz_isSome (d : PyDateTime) : (normTz d).tzinfo.isSome = true := by
  unfold normTz
  cases h : d.tzinfo <;> simp [h]

theorem updateGo_rows (db : Store) (now : Nat) (execFails : FileTuple → Bool) :
    ∀ (files : List FileTuple) (txn s2 : Store),
      updateGo db now execFails txn files = (s2, none) →
      ∀ r ∈ s2.rows, r ∈ txn.rows ∨ r.last_modified.tzinfo.isSome = true := by
  intro files
  induction files with
  | nil =>
    intro txn s2 h r hr
    simp only [updateGo, Prod.mk.injEq] at h
    exact Or.inl (h.1 ▸ hr)
  | cons g rest ih =>
    intro txn s2 h r hr
    by_cases hg : execFails g = true
    · simp only [updateGo, hg, if_true] at h
      exact absurd (congrArg Prod.snd h) (by simp)
    · simp only [Bool.not_eq_true] at hg
      simp only [updateGo, hg, Bool.false_eq_true, if_false] at h
      rcases ih (applyInsert now txn g) s2 h r hr with hmem | hs
      · simp only [applyInsert, List.mem_append, List.mem_singleton] at hmem
        rcases hmem with hmem | rfl
        · exact Or.inl (List.mem_of_mem_filter hmem)
        · exact Or.inr (normTz_isSome g.lastModified)
      · exact Or.inr hs

theorem uniqueCks_applyInsert (now : Nat) (s : Store) (f : FileTuple)
    (h : UniqueChecksums s) : UniqueChecksums (applyInsert now s f) := by
  unfold UniqueChecksums at *
  simp only [applyInsert, List.map_append, List.map_cons, List.map_nil, mkRow_checksum]
  apply List.Nodup.append
  · exact (((List.filter_sublist s.rows).map FileRecord.checksum)).nodup h
  · exact List.nodup_singleton _
  · intro a ha hb
    simp only [List.mem_singleton] at hb
    subst hb
    obtain ⟨r, hrf, hrc⟩ := List.mem_map.mp ha
    have := List.mem_filter.mp hrf
    simp only [bne_iff_ne, ne_eq, Bool.not_eq_true', beq_eq_false_iff_ne] at this
    exact this.2 (by rw [hrc])

theorem uniqueCks_upsertAll (now : Nat) :
    ∀ (files : List FileTuple) (s : Store),
      UniqueChecksums s → UniqueChecksums (upsertAll now s files) := by
  intro files
  induction files with
  | nil => intro s h; exact h
  | cons g rest ih =>
    intro s h
    rw [upsertAll_cons]
    exact ih _ (uniqueCks_applyInsert now s g h)

theorem uniqueCks_applyOp (s : Store) (op : DbOp) (h : UniqueChecksums s) :
    UniqueChecksums (applyOp s op) := by
  cases op with
  | initOp => exact h
  | loadOp => exact h
  | upsertOp now files => exact uniqueCks_upsertAll now files s h

theorem uniqueCks_foldl :
    ∀ (ops : List DbOp) (s : Store), UniqueChecksums s →
      UniqueChecksums (ops.foldl applyOp s) := by
  intro ops
  induction ops with
  | nil => intro s h; exact h
  | cons op rest ih =>
    intro s h
    exact ih _ (uniqueCks_applyOp s op h)

theorem filter_ne_length (c : String) :
    ∀ rows : List FileRecord, (rows.map FileRecord.checksum).Nodup →
      c ∈ rows.map FileRecord.checksum →
      (rows.filter (fun r => !(r.checksum == c))).length + 1 = rows.length := by
  intro rows
  induction rows with
  | nil => intro _ h; exact absurd h (by simp)
  | cons r rest ih =>
    intro hnd hc
    simp only [List.map_cons, List.nodup_cons] at hnd
    by_cases hr : r.checksum = c
    · have hcrest : c ∉ rest.map FileRecord.checksum := by rw [← hr]; exact hnd.1
      rw [List.filter_cons]
      simp only [hr, beq_self_eq_true, Bool.not_true, Bool.false_eq_true, if_false]
      rw [filter_ne_of_not_mem rest c hcrest]
      simp
    · have hcr : c ∈ rest.map FileRecord.checksum := by
        simp only [List.map_cons, List.mem_cons] at hc
        rcases hc with h | h
        · exact absurd h.symm hr
        · exact h
      rw [List.filter_cons]
      have : (!(r.checksum == c)) = true := by simp [hr]
      simp only [this, if_true, List.length_cons]
      rw [← ih hnd.2 hcr]

/-- C8: during the walk, an entry that fails the `os.path.isfile` test
(symlink, device, directory-as-leaf, vanished entry) is silently skipped:
the walk behaves exactly as it would on the entry list with all non-regular
entries removed — no metadata or checksum of theirs is consulted, they never
reach the pending batch, and they cause no error. -/
theorem C8_nonregular_silently_skipped (tracked : List (String × String))
    (entries : List FsEntry) :
    processEntries tracked entries
      = processEntries tracked (entries.filter fun e => e.isFile) := by
  induction entries with
  | nil => rfl
  | cons e rest ih =>
    by_cases hf : e.isFile = true
    · have hfil : (e :: rest).filter (fun e => e.isFile)
          = e :: rest.filter (fun e => e.isFile) := by
        simp [List.filter_cons, hf]
      rw [hfil]
      by_cases hr : e.readable = true
      · by_cases hm : (e.path, calculate_checksum e.content) ∈ tracked
        · simp [processEntries, hf, hr, hm, ih]
        · simp [processEntries, hf, hr, hm, ih]
      · simp only [Bool.not_eq_true] at hr
        simp [processEntries, hf, hr]
    · simp only [Bool.not_eq_true] at hf
      have hfil : (e :: rest).filter (fun e => e.isFile)
          = rest.filter (fun e => e.isFile) := by
        simp [List.filter_cons, hf]
      rw [hfil]
      simp [processEntries, hf, ih]

/-- C6: the batched persistence call is atomic and its failure becomes the
outcome of the run: when every `INSERT OR REPLACE` succeeds the whole batch is committed
(`upsertAll`); when any execution fails, the transaction is never committed,
the durable store is exactly the prior store, and the error propagates; at the
run level, a failing persistence call makes `check_for_new_files` end in that
error. -/
theorem C6_batch_upsert_atomic (db : Store) (now : Nat) (files : List FileTuple)
    (execFails : FileTuple → Bool) (s : Store) (entries : List FsEntry)
    (b : List FileTuple) (msg : String) :
    ((∀ f ∈ files, execFails f = false) →
       updateFileMetadata db now files execFails = (upsertAll now db files, none))
    ∧ ((∃ f ∈ files, execFails f = true) →
       updateFileMetadata db now files execFails = (db, some "StorageError"))
    ∧ (processEntries (getTrackedFiles s) entries = .ok b → b ≠ [] →
       updateFileMetadata s now b execFails = (s, some msg) →
       checkForNewFiles s now entries execFails = .error msg) := by
  refine ⟨fun h => updateGo_ok db now execFails files db h,
          fun h => updateGo_err db now execFails files db h, ?_⟩
  intro h1 h2 h3
  simp [checkForNewFiles, h1, h2, h3]

theorem C6_batch_upsert_atomic_witness :
    updateFileMetadata initDb 3 [t6w] (fun _ => false) = (upsertAll 3 initDb [t6w], none)
    ∧ updateFileMetadata initDb 3 [t6w] (fun _ => true) = (initDb, some "StorageError")
    ∧ checkForNewFiles initDb 3 [e6w] (fun _ => true) = .error "StorageError" :=
  ⟨(C6_batch_upsert_atomic initDb 3 [t6w] (fun _ => false) initDb [] [] "x").1
     (fun _ _ => rfl),
   (C6_batch_upsert_atomic initDb 3 [t6w] (fun _ => true) initDb [] [] "x").2.1
     ⟨t6w, List.mem_singleton.mpr rfl, rfl⟩,
   (C6_batch_upsert_atomic initDb 3 [newTuple e6w] (fun _ => true) initDb [e6w]
       [newTuple e6w] "StorageError").2.2 (by rfl) (by decide) (by rfl)⟩

/-- C9: a timezone-naive `last_modified` is made timezone-aware by attaching
UTC without changing the clock value (`replace(tzinfo=timezone.utc)`), an
already-aware one passes through with its zone, and consequently every row a
successful `_update_file_metadata` call writes (every row of the result not
already in the prior store) carries a timezone-aware `last_modified`. -/
theorem C9_naive_mtime_normalized_to_utc (d : PyDateTime) (db : Store) (now : Nat)
    (files : List FileTuple) (execFails : FileTuple → Bool) (s2 : Store) :
    (d.tzinfo = none → normTz d = ⟨d.clock, some 0⟩)
    ∧ (normTz d).tzinfo.isSome = true
    ∧ (updateFileMetadata db now files execFails = (s2, none) →
        ∀ r ∈ s2.rows, r ∈ db.rows ∨ r.last_modified.tzinfo.isSome = true) := by
  refine ⟨fun h => by simp [normTz, h], normTz_isSome d, ?_⟩
  intro h r hr
  exact updateGo_rows db now execFails files db s2 h r hr

theorem C9_naive_mtime_normalized_witness :
    normTz ⟨11, none⟩ = ⟨11, some 0⟩
    ∧ (mkRow 3 1 t9w ∈ initDb.rows ∨ (mkRow 3 1 t9w).last_modified.tzinfo.isSome = true) :=
  ⟨(C9_naive_mtime_normalized_to_utc ⟨11, none⟩ initDb 3 [] (fun _ => false) initDb).1 rfl,
   (C9_naive_mtime_normalized_to_utc ⟨11, none⟩ initDb 3 [t9w] (fun _ => false)
       (upsertAll 3 initDb [t9w])).2.2 (updateFileMetadata_noFail initDb 3 [t9w])
     (mkRow 3 1 t9w) (List.mem_singleton.mpr rfl)⟩

/-- C4: after any sequence of initialize, load and upsert operations starting
from a fresh database, no two rows share a checksum; and upserting a tuple
whose checksum already exists replaces the existing row (same row count, and
the single row carrying that checksum is the newly written one) instead of
adding a duplicate. -/
theorem C4_checksum_uniqueness_invariant (ops : List DbOp) (s : Store) (now : Nat)
    (f : FileTuple) :
    UniqueChecksums (ops.foldl applyOp initDb)
    ∧ (UniqueChecksums s → f.checksum ∈ s.rows.map FileRecord.checksum →
        (applyInsert now s f).rows.length = s.rows.length
        ∧ (applyInsert now s f).rows.filter (fun r => r.checksum == f.checksum)
            = [mkRow now s.nextId f]) := by
  constructor
  · exact uniqueCks_foldl ops initDb (by simp [initDb, UniqueChecksums])
  · intro hu hc
    refine ⟨?_, filter_eq_applyInsert now s f⟩
    simp only [applyInsert, List.length_append, List.length_singleton]
    exact filter_ne_length f.checksum s.rows hu hc

theorem C4_checksum_uniqueness_witness :
    (applyInsert 2 s4w t4w).rows.length = s4w.rows.length
    ∧ (applyInsert 2 s4w t4w).rows.filter (fun r => r.checksum == t4w.checksum)
        = [mkRow 2 s4w.nextId t4w] :=
  (C4_checksum_uniqueness_invariant [] s4w 2 t4w).2 (by decide) (by decide)

/-- C1 counterexample: a file with the empty content is tracked at
`data/a.txt`; the same content shows up at `data/b.txt` (a move/rename).
The pass does NOT leave the store record for that checksum unchanged: it
re-records it — the prior row is gone, and the single row for that checksum
now carries the new path `data/b.txt` and the fresh write time 7 instead of
the prior path `data/a.txt` and upload date 5. -/
theorem C1_counterexample :
    checkForNewFiles s1cex 7 [e1cex] (fun _ => false)
      = .ok ⟨applyInsert 7 s1cex (newTuple e1cex), [newTuple e1cex]⟩
    ∧ s1cex.rows.map (fun r => (r.path, r.upload_date)) = [("data/a.txt", 5)]
    ∧ (applyInsert 7 s1cex (newTuple e1cex)).rows.map (fun r => (r.path, r.upload_date))
        = [("data/b.txt", 7)]
    ∧ (applyInsert 7 s1cex (newTuple e1cex)).rows.map FileRecord.checksum
        = [calculate_checksum []] :=
  ⟨rfl, rfl, rfl, rfl⟩

/-- C1 amended: when a file on disk has content identical to a stored record
(same checksum) but a different path, the detection pass DOES re-record it:
its `(path, checksum)` pair is absent from the tracked snapshot, so the file
joins the batch and the upsert replaces the stored record for that checksum —
the prior row disappears and the single row for the checksum now carries the
new path, the new basename, and a fresh `upload_date`; no duplicate row is
created. -/
theorem C1_moved_file_is_rerecorded (s : Store) (now : Nat) (e : FsEntry)
    (r : FileRecord) (hr : r ∈ s.rows)
    (hcks : calculate_checksum e.content = r.checksum)
    (hf : e.isFile = true) (hread : e.readable = true)
    (hnp : (e.path, r.checksum) ∉ getTrackedFiles s) :
    checkForNewFiles s now [e] (fun _ => false)
      = .ok ⟨applyInsert now s (newTuple e), [newTuple e]⟩
    ∧ r ∉ (applyInsert now s (newTuple e)).rows
    ∧ (applyInsert now s (newTuple e)).rows.filter (fun x => x.checksum == r.checksum)
        = [mkRow now s.nextId (newTuple e)] := by
  have hall : AllReadable [e] := by
    intro f hfm _
    rcases List.mem_singleton.mp hfm with rfl
    exact hread
  have hm : (e.path, calculate_checksum e.content) ∉ getTrackedFiles s := by
    rw [hcks]; exact hnp
  have hwb : walkBatch (getTrackedFiles s) [e] = [newTuple e] := by
    simp [walkBatch, hf, hm]
  refine ⟨?_, ?_, ?_⟩
  · rw [checkForNewFiles_noFail s now [e] hall, hwb]
    rfl
  · intro hmem
    simp only [applyInsert, List.mem_append, List.mem_singleton] at hmem
    rcases hmem with hmf | heq
    · have h2 := (List.mem_filter.mp hmf).2
      have : (newTuple e).checksum = r.checksum := hcks
      simp [this] at h2
    · apply hnp
      refine List.mem_map.mpr ⟨r, hr, ?_⟩
      rw [heq]
      simp [mkRow, newTuple, hcks]
  · have := filter_eq_applyInsert now s (newTuple e)
    rw [show (newTuple e).checksum = r.checksum from hcks] at this
    exact this

theorem C1_moved_file_witness :
    checkForNewFiles s1cex 11 [e1cex] (fun _ => false)
      = .ok ⟨applyInsert 11 s1cex (newTuple e1cex), [newTuple e1cex]⟩
    ∧ r1cex ∉ (applyInsert 11 s1cex (newTuple e1cex)).rows :=
  have h := C1_moved_file_is_rerecorded s1cex 11 e1cex r1cex
    (List.mem_singleton.mpr rfl) rfl rfl rfl (by decide)
  ⟨h.1, h.2.1⟩

theorem walkBatch_append (tracked : List (String × String)) :
    ∀ xs ys : List FsEntry,
      walkBatch tracked (xs ++ ys) = walkBatch tracked xs ++ walkBatch tracked ys := by
  intro xs ys
  induction xs with
  | nil => rfl
  | cons e rest ih =>
    by_cases hf : e.isFile = true
    · by_cases hm : (e.path, calculate_checksum e.content) ∈ tracked
      · simp [walkBatch, hf, hm, ih]
      · simp [walkBatch, hf, hm, ih]
    · simp only [Bool.not_eq_true] at hf
      simp [walkBatch, hf, ih]

/-- C7: when the content of a file at a tracked path changes (its new checksum
is fresh) and every other regular file in the walk is tracked, the next pass
hands exactly one tuple to the upsert and appends exactly one new row for the
new checksum; every prior row — including the one for the old checksum at that
path — is left untouched, and the row count grows by exactly one. -/
theorem C7_content_change_adds_one_record (s : Store) (now : Nat)
    (es1 es2 : List FsEntry) (e : FsEntry) (cOld : String)
    (hall : AllReadable (es1 ++ e :: es2))
    (h1 : ∀ f ∈ es1, f.isFile = true → (f.path, entryCks f) ∈ getTrackedFiles s)
    (h2 : ∀ f ∈ es2, f.isFile = true → (f.path, entryCks f) ∈ getTrackedFiles s)
    (hf : e.isFile = true)
    (hold : ∃ r ∈ s.rows, r.path = e.path ∧ r.checksum = cOld)
    (hne : entryCks e ≠ cOld)
    (hfresh : entryCks e ∉ s.rows.map FileRecord.checksum) :
    checkForNewFiles s now (es1 ++ e :: es2) (fun _ => false)
      = .ok ⟨⟨s.rows ++ [mkRow now s.nextId (newTuple e)], s.nextId + 1⟩, [newTuple e]⟩
    ∧ (s.rows ++ [mkRow now s.nextId (newTuple e)]).length = s.rows.length + 1 := by
  have hm : (e.path, calculate_checksum e.content) ∉ getTrackedFiles s := by
    intro hmem
    obtain ⟨r, hr, heq⟩ := List.mem_map.mp hmem
    exact hfresh (List.mem_map.mpr ⟨r, hr, congrArg Prod.snd heq⟩)
  have hwb : walkBatch (getTrackedFiles s) (es1 ++ e :: es2) = [newTuple e] := by
    rw [walkBatch_append, walkBatch_nil_of_tracked _ es1 h1]
    simp [walkBatch, hf, hm, walkBatch_nil_of_tracked _ es2 h2]
  constructor
  · rw [checkForNewFiles_noFail s now _ hall, hwb]
    have : upsertAll now s [newTuple e]
        = ⟨s.rows ++ [mkRow now s.nextId (newTuple e)], s.nextId + 1⟩ := by
      show applyInsert now s (newTuple e) = _
      unfold applyInsert
      rw [filter_ne_of_not_mem s.rows (newTuple e).checksum hfresh]
    rw [this]
  · simp

theorem C7_content_change_witness :
    checkForNewFiles s7w 9 [e7w] (fun _ => false)
      = .ok ⟨⟨s7w.rows ++ [mkRow 9 s7w.nextId (newTuple e7w)], s7w.nextId + 1⟩,
             [newTuple e7w]⟩ :=
  (C7_content_change_adds_one_record s7w 9 [] [] e7w "oldsum" (by decide)
    (fun f hf => absurd hf (List.not_mem_nil f))
    (fun f hf => absurd hf (List.not_mem_nil f)) rfl
    ⟨r7w, List.mem_singleton.mpr rfl, rfl, rfl⟩ (by decide) (by decide)).1

set_option maxRecDepth 8192 in
/-- C3 counterexample: `data/a.txt` and `data/b.txt` have identical (empty)
content. The first pass batches both, but the upsert keyed on checksum keeps
only the row for `data/b.txt`. The second pass over the unchanged directory
then finds `(data/a.txt, checksum)` untracked again and persists one new
record — the second run is NOT empty and the store changes. -/
theorem C3_counterexample :
    checkForNewFiles initDb 1 [e3a, e3b] (fun _ => false)
      = .ok ⟨upsertAll 1 initDb [newTuple e3a, newTuple e3b],
             [newTuple e3a, newTuple e3b]⟩
    ∧ checkForNewFiles (upsertAll 1 initDb [newTuple e3a, newTuple e3b]) 2 [e3a, e3b]
        (fun _ => false)
      = .ok ⟨upsertAll 2 (upsertAll 1 initDb [newTuple e3a, newTuple e3b]) [newTuple e3a],
             [newTuple e3a]⟩
    ∧ [newTuple e3a] ≠ ([] : List FileTuple)
    ∧ upsertAll 2 (upsertAll 1 initDb [newTuple e3a, newTuple e3b]) [newTuple e3a]
        ≠ upsertAll 1 initDb [newTuple e3a, newTuple e3b] :=
  ⟨rfl, rfl, by decide, by decide⟩

/-- C3 amended: over a directory whose regular files are all readable and
have pairwise distinct checksums, a detection pass following a completed pass
persists nothing: the batch of the second run is empty (no upsert call is issued)
and the store is unchanged. Without the distinct-checksum condition the
property fails (see the counterexample with two identical files). -/
theorem C3_second_pass_is_noop (s : Store) (now1 now2 : Nat) (entries : List FsEntry)
    (hread : AllReadable entries) (hdist : DistinctCks entries)
    (s1 : Store) (b1 : List FileTuple)
    (h1 : checkForNewFiles s now1 entries (fun _ => false) = .ok ⟨s1, b1⟩) :
    checkForNewFiles s1 now2 entries (fun _ => false) = .ok ⟨s1, []⟩ := by
  rw [checkForNewFiles_noFail s now1 entries hread] at h1
  injection h1 with h1'
  injection h1' with hs hb
  subst hs
  rw [checkForNewFiles_noFail _ now2 entries hread]
  suffices hW : walkBatch
      (getTrackedFiles (upsertAll now1 s (walkBatch (getTrackedFiles s) entries)))
      entries = [] by
    rw [hW]; rfl
  apply walkBatch_nil_of_tracked
  intro e he hf
  by_cases hm : (e.path, entryCks e) ∈ getTrackedFiles s
  · apply tracked_preserved now1 _ s _ _ hm
    intro t ht heq
    obtain ⟨f, hfe, hff, hfm, rfl⟩ := walkBatch_mem_inv (getTrackedFiles s) entries t ht
    have hfeq : f = e :=
      List.inj_on_of_nodup_map hdist (List.mem_filter.mpr ⟨hfe, hff⟩)
        (List.mem_filter.mpr ⟨he, hf⟩) heq
    subst hfeq
    exact hfm hm
  · have hb2 : newTuple e ∈ walkBatch (getTrackedFiles s) entries :=
      walkBatch_mem (getTrackedFiles s) entries e he hf hm
    have hnd : ((walkBatch (getTrackedFiles s) entries).map FileTuple.checksum).Nodup :=
      (walkBatch_cks_sublist (getTrackedFiles s) entries).nodup hdist
    exact tracked_after_upsertAll now1 _ s (newTuple e) hb2 hnd

theorem C3_second_pass_witness :
    checkForNewFiles (upsertAll 1 initDb [newTuple e3a]) 2 [e3a] (fun _ => false)
      = .ok ⟨upsertAll 1 initDb [newTuple e3a], []⟩ :=
  C3_second_pass_is_noop initDb 1 2 [e3a] (by decide) (by decide) _ _ rfl

theorem upsertAll_same_cks (now : Nat) (c : String) :
    ∀ (batch : List FileTuple) (s : Store) (tLast : FileTuple),
      (∀ t ∈ batch, t.checksum = c) → batch.getLast? = some tLast →
      (upsertAll now s batch).rows.filter (fun r => r.checksum == c)
        = [mkRow now (s.nextId + batch.length - 1) tLast] := by
  intro batch
  induction batch with
  | nil => intro s t _ h; exact absurd h (by simp)
  | cons b rest ih =>
    intro s tLast hall hlast
    cases rest with
    | nil =>
      have htb : b = tLast := by
        have : some b = some tLast := hlast
        exact Option.some.inj this
      subst htb
      have hb : b.checksum = c := hall b (List.mem_singleton.mpr rfl)
      have h := filter_eq_applyInsert now s b
      rw [hb] at h
      exact h
    | cons b2 rest2 =>
      rw [upsertAll_cons]
      have hlast2 : (b2 :: rest2).getLast? = some tLast := by
        rwa [List.getLast?_cons_cons] at hlast
      have hall2 : ∀ t ∈ b2 :: rest2, t.checksum = c :=
        fun t ht => hall t (List.mem_cons_of_mem b ht)
      have h := ih (applyInsert now s b) tLast hall2 hlast2
      rw [h]
      have hid : (applyInsert now s b).nextId + (b2 :: rest2).length - 1
          = s.nextId + (b :: b2 :: rest2).length - 1 := by
        simp only [applyInsert, List.length_cons]
        omega
      rw [hid]

/-- C10: when two or more distinct untracked regular files with identical
content (one checksum `c`) are walked in one pass, every one of them joins the
pending batch (the membership test uses only the pre-walk snapshot), yet after
persistence the store holds exactly one row for `c` — the one written for the
file processed last in walk order, carrying the path of that file. -/
theorem C10_same_content_last_path_wins (s : Store) (now : Nat)
    (entries : List FsEntry) (c : String) (eLast : FsEntry)
    (hlen : 2 ≤ entries.length)
    (hall : ∀ e ∈ entries, e.isFile = true ∧ e.readable = true ∧ entryCks e = c
              ∧ (e.path, c) ∉ getTrackedFiles s)
    (hlast : entries.getLast? = some eLast) :
    checkForNewFiles s now entries (fun _ => false)
      = .ok ⟨upsertAll now s (entries.map newTuple), entries.map newTuple⟩
    ∧ (upsertAll now s (entries.map newTuple)).rows.filter (fun r => r.checksum == c)
        = [mkRow now (s.nextId + entries.length - 1) (newTuple eLast)] := by
  have hread : AllReadable entries := fun e he _ => (hall e he).2.1
  have hwb : walkBatch (getTrackedFiles s) entries = entries.map newTuple := by
    apply walkBatch_all_new
    intro e he
    obtain ⟨h1, _, h3, h4⟩ := hall e he
    refine ⟨h1, ?_⟩
    rw [h3]
    exact h4
  constructor
  · rw [checkForNewFiles_noFail s now entries hread, hwb]
  · have hcks : ∀ t ∈ entries.map newTuple, t.checksum = c := by
      intro t ht
      obtain ⟨e, he, rfl⟩ := List.mem_map.mp ht
      exact (hall e he).2.2.1
    have hlast2 : (entries.map newTuple).getLast? = some (newTuple eLast) := by
      rw [List.getLast?_map, hlast]
      rfl
    have h := upsertAll_same_cks now c (entries.map newTuple) s (newTuple eLast)
      hcks hlast2
    rwa [List.length_map] at h

theorem C10_same_content_witness :
    checkForNewFiles initDb 5 [e10a, e10b] (fun _ => false)
      = .ok ⟨upsertAll 5 initDb [newTuple e10a, newTuple e10b],
             [newTuple e10a, newTuple e10b]⟩
    ∧ (upsertAll 5 initDb [newTuple e10a, newTuple e10b]).rows.filter
        (fun r => r.checksum == calculate_checksum [9])
        = [mkRow 5 (initDb.nextId + 2 - 1) (newTuple e10b)] :=
  C10_same_content_last_path_wins initDb 5 [e10a, e10b] (calculate_checksum [9]) e10b
    (by decide) (by decide) rfl

theorem processEntries_err (tracked : List (String × String)) :
    ∀ (es1 : List FsEntry) (eu : FsEntry) (es2 : List FsEntry),
      AllReadable es1 → eu.isFile = true → eu.readable = false →
      processEntries tracked (es1 ++ eu :: es2) = .error eu.path := by
  intro es1
  induction es1 with
  | nil =>
    intro eu es2 _ hf hr
    simp [processEntries, hf, hr]
  | cons e rest ih =>
    intro eu es2 hall hf hr
    have hrest : AllReadable rest := fun f hfm => hall f (List.mem_cons_of_mem e hfm)
    have hrec := ih eu es2 hrest hf hr
    by_cases hef : e.isFile = true
    · have her : e.readable = true := hall e (List.mem_cons_self e rest) hef
      by_cases hm : (e.path, calculate_checksum e.content) ∈ tracked
      · simpa [processEntries, hef, her, hm] using hrec
      · simp [processEntries, hef, her, hm, hrec]
    · simp only [Bool.not_eq_true] at hef
      simpa [processEntries, hef] using hrec

/-- C2 counterexample: a directory listing a readable file, then a regular but
unreadable file, then another readable file. The pass does NOT skip the
unreadable file and continue: both the walk and the whole run abort with the
error of the unreadable file, so neither readable file is persisted (no store is
produced at all). -/
theorem C2_counterexample :
    processEntries (getTrackedFiles initDb) [e2a, e2u, e2c] = .error "data/locked.txt"
    ∧ checkForNewFiles initDb 4 [e2a, e2u, e2c] (fun _ => false)
        = .error "data/locked.txt" :=
  ⟨rfl, rfl⟩

/-- C2 amended: a file that disappears between listing and processing fails
the `os.path.isfile` test and is skipped, the walk continuing unaffected; but
a regular file that cannot be opened for reading makes the pass raise — the
entire run aborts with that error and nothing from the pass (including
the readable files) is persisted. -/
theorem C2_unreadable_aborts_run (tracked : List (String × String)) (ev : FsEntry)
    (rest : List FsEntry) (s : Store) (now : Nat) (es1 es2 : List FsEntry)
    (eu : FsEntry) (execFails : FileTuple → Bool) :
    (ev.isFile = false → processEntries tracked (ev :: rest) = processEntries tracked rest)
    ∧ (AllReadable es1 → eu.isFile = true → eu.readable = false →
        checkForNewFiles s now (es1 ++ eu :: es2) execFails = .error eu.path) := by
  constructor
  · intro hv
    simp [processEntries, hv]
  · intro hall hf hr
    simp [checkForNewFiles, processEntries_err (getTrackedFiles s) es1 eu es2 hall hf hr]

theorem C2_unreadable_aborts_witness :
    processEntries [] [e2v, e2a] = processEntries [] [e2a]
    ∧ checkForNewFiles initDb 4 [e2a, e2u, e2c] (fun _ => true) = .error "data/locked.txt" :=
  ⟨(C2_unreadable_aborts_run [] e2v [e2a] initDb 4 [e2a] [e2c] e2u (fun _ => true)).1 rfl,
   (C2_unreadable_aborts_run [] e2v [e2a] initDb 4 [e2a] [e2c] e2u (fun _ => true)).2
     (by decide) rfl rfl⟩
